import Mathlib

/-!
Verification of the transcript-formatting pipeline (`backend/formatter.py`).

Strings are modelled as `List Char`.  Python string/`re` operations used by the
source are embedded directly (ASCII character classes, as all inputs of
interest are ASCII).  External collaborators — `json.loads` and the Anthropic
generation client — are modelled as explicit oracle parameters: the pipeline's
control flow is proved for every oracle, and concrete instantiations are used
for witnesses and counterexamples (always consistent with the library's
behaviour on the strings actually consulted).
-/

set_option maxRecDepth 40000

namespace TranscriptFormatter

/-- Python whitespace (`\s`, `str.strip`), ASCII range. -/
def isPySpace (c : Char) : Bool :=
  c = ' ' || c = '\t' || c = '\n' || c = '\r' || c = '\x0b' || c = '\x0c'

/-- Line boundaries recognised by Python `str.splitlines`. -/
def isLineBreak (c : Char) : Bool :=
  c = '\n' || c = '\r' || c = '\x0b' || c = '\x0c' || c = '\x1c' ||
  c = '\x1d' || c = '\x1e' || c = '\u0085' || c = ' ' || c = ' '

/-- Word characters for the regex `\b` boundary (`\w`, ASCII range). -/
def isWordChar (c : Char) : Bool :=
  c.isAlphanum || c = '_'

def isAsciiUpper (c : Char) : Bool := 'A' ≤ c && c ≤ 'Z'

def isAsciiAlpha (c : Char) : Bool := isAsciiUpper c || ('a' ≤ c && c ≤ 'z')

/-- `str.splitlines`, accumulator-based; `\r\n` counts as a single boundary,
a trailing boundary produces no final empty line. -/
def splitlinesGo : List Char → List Char → List (List Char)
  | [], acc => if acc.isEmpty then [] else [acc.reverse]
  | '\r' :: '\n' :: rest, acc => acc.reverse :: splitlinesGo rest []
  | c :: rest, acc =>
    if isLineBreak c then acc.reverse :: splitlinesGo rest []
    else splitlinesGo rest (c :: acc)

def splitlines (l : List Char) : List (List Char) := splitlinesGo l []

/-- `str.strip()`. -/
def stripPy (l : List Char) : List Char :=
  ((l.dropWhile isPySpace).reverse.dropWhile isPySpace).reverse

/-- Segment kinds of the JSON schema (`type` field). -/
inductive SegKind
  | speaker
  | music
  | scripture
  | narration
deriving DecidableEq, Repr

/-- One segment dict `{type, speaker, content, emphasis}`; an emphasis entry
`{text, style}` is a pair of strings. -/
structure Segment where
  kind : SegKind
  speaker : Option (List Char)
  content : List Char
  emphasis : List (List Char × List Char)
deriving DecidableEq, Repr

/-! ### The scripture regex `\b([1-3]?\s?[A-Z][a-zA-Z]+)\s+\d+:\d+(?:-\d+)?\b`,
used with `re.search`.  All adjacent repetition classes are disjoint, so after
the two leading optionals the match is deterministic; existence of a match is
what `search` reports. -/

/-- `\b` after a word character: next char absent or non-word. -/
def noWordAhead : List Char → Bool
  | [] => true
  | c :: _ => !isWordChar c

/-- `[a-zA-Z]+\s+\d+:\d+(?:-\d+)?\b` at the head of the list. -/
def scripTail (l : List Char) : Bool :=
  let alphas := l.takeWhile isAsciiAlpha
  let l1 := l.dropWhile isAsciiAlpha
  if alphas.isEmpty then false
  else
    let sps := l1.takeWhile isPySpace
    let l2 := l1.dropWhile isPySpace
    if sps.isEmpty then false
    else
      let ds := l2.takeWhile Char.isDigit
      let l3 := l2.dropWhile Char.isDigit
      if ds.isEmpty then false
      else
        match l3 with
        | ':' :: l4 =>
          let ds2 := l4.takeWhile Char.isDigit
          let l5 := l4.dropWhile Char.isDigit
          if ds2.isEmpty then false
          else
            noWordAhead l5 ||
              (match l5 with
               | '-' :: l6 =>
                 let ds3 := l6.takeWhile Char.isDigit
                 !ds3.isEmpty && noWordAhead (l6.dropWhile Char.isDigit)
               | _ => false)
        | _ => false

/-- `[A-Z][a-zA-Z]+…` at the head of the list. -/
def scripFromUpper : List Char → Bool
  | [] => false
  | c :: rest => isAsciiUpper c && scripTail rest

/-- `\b` before a word character, `prev` the preceding char (if any). -/
def boundaryOkWord : Option Char → Bool
  | none => true
  | some p => !isWordChar p

/-- `\b` before a non-word character. -/
def boundaryOkNonword : Option Char → Bool
  | none => false
  | some p => isWordChar p

/-- A match of the scripture pattern starting exactly here; the three branches
are the choices for the optional `[1-3]?` and `\s?`. -/
def scripAt (prev : Option Char) (l : List Char) : Bool :=
  (match l with
   | d :: rest =>
     (d = '1' || d = '2' || d = '3') && boundaryOkWord prev &&
       ((match rest with
         | s :: rest2 => isPySpace s && scripFromUpper rest2
         | [] => false) || scripFromUpper rest)
   | [] => false)
  ||
  (match l with
   | s :: rest => isPySpace s && boundaryOkNonword prev && scripFromUpper rest
   | [] => false)
  ||
  (boundaryOkWord prev && scripFromUpper l)

def scripSearchGo : Option Char → List Char → Bool
  | _, [] => false
  | prev, c :: rest => scripAt prev (c :: rest) || scripSearchGo (some c) rest

/-- `scripture_pattern.search(ln)` as a Boolean. -/
def scripture_search (l : List Char) : Bool := scripSearchGo none l

/-! ### The speaker regex `^([A-Z][A-Za-z .'-]{1,40}):\s*(.*)`, used with
`re.match`.  The greedy bounded repetition takes the largest `k ≤ 40` whose
next character is the colon. -/

def isSpeakerChar (c : Char) : Bool :=
  isAsciiAlpha c || c = ' ' || c = '.' || c = '\'' || c = '-'

/-- Candidate repetition counts, greedy order `[40, 39, …, 1]`. -/
def speakerKRange : List Nat := (List.range 40).map (fun i => 40 - i)

/-- `speaker_pattern.match(ln)`: on success, (group 1, group 2 after `\s*`). -/
def speaker_match (l : List Char) : Option (List Char × List Char) :=
  match l with
  | [] => none
  | c :: rest =>
    if isAsciiUpper c then
      match speakerKRange.find? (fun k =>
          (rest.take k).all isSpeakerChar && ((rest.drop k).head? = some ':')) with
      | some k => some (c :: rest.take k, (rest.drop (k + 1)).dropWhile isPySpace)
      | none => none
    else none

/-- `'♪' in ln`. -/
def musicIn (l : List Char) : Bool := l.contains '♪'

/-! ### The rule-based segmenter `pseudo_segment_chunk` (formatter.py 105-211). -/

/-- Mutable state of the line loop: emitted segments plus the open buffer
(`buffer`, `buffer_type`, `buffer_speaker`). -/
structure SegState where
  segs : List Segment
  buffer : List (List Char)
  btype : Option SegKind
  bspeaker : Option (List Char)
deriving DecidableEq, Repr

/-- `" ".join(buffer)`. -/
def joinSp (bs : List (List Char)) : List Char := List.intercalate ([' ']) bs

/-- `flush_buffer()`. -/
def flush_buffer (st : SegState) : SegState :=
  if st.buffer.isEmpty then st
  else
    let content := stripPy (joinSp st.buffer)
    if content.isEmpty then { st with buffer := [], btype := none, bspeaker := none }
    else
      let seg : Segment :=
        match st.btype with
        | some .speaker => ⟨.speaker, st.bspeaker, content, []⟩
        | some .scripture => ⟨.scripture, none, content, []⟩
        | some .music => ⟨.music, none, content, []⟩
        | _ => ⟨.narration, none, content, []⟩
      { segs := st.segs ++ [seg], buffer := [], btype := none, bspeaker := none }

/-- Body of `for ln in lines` (formatter.py 161-204). -/
def stepLine (st : SegState) (ln : List Char) : SegState :=
  if musicIn ln then
    let st1 := flush_buffer st
    flush_buffer { st1 with btype := some .music, buffer := [ln] }
  else if scripture_search ln then
    let st1 := flush_buffer st
    flush_buffer { st1 with btype := some .scripture, buffer := [ln] }
  else
    match speaker_match ln with
    | some (name, rest) =>
      let st1 := flush_buffer st
      { st1 with btype := some .speaker, bspeaker := some name, buffer := [rest] }
    | none =>
      if st.btype = none || st.btype = some .narration then
        { st with btype := some .narration, buffer := st.buffer ++ [ln] }
      else if st.btype = some .speaker then
        { st with buffer := st.buffer ++ [ln] }
      else
        let st1 := flush_buffer st
        { st1 with btype := some .narration, buffer := [ln] }

/-- `[ln.strip() for ln in raw_text.splitlines() if ln.strip()]`. -/
def linesOf (raw : List Char) : List (List Char) :=
  ((splitlines raw).map stripPy).filter (fun l => !l.isEmpty)

/-- `pseudo_segment_chunk` (formatter.py 105-211). -/
def pseudo_segment_chunk (raw : List Char) : List Segment :=
  let st := (linesOf raw).foldl stepLine ⟨[], [], none, none⟩
  let st1 := flush_buffer st
  if st1.segs.isEmpty then [⟨.narration, none, raw, []⟩]
  else st1.segs

example : pseudo_segment_chunk ([]) = [⟨.narration, none, [], []⟩] := by decide

/-! ### The chunker `split_text_into_chunks` (formatter.py 74-102). -/

/-- Python slice-index normalisation used by `str.find(sub, start, end)`:
negative indices count from the end, results are clamped to `[0, n]`. -/
def pyAdjust (n : Nat) (i : Int) : Nat :=
  if i < 0 then (n + i).toNat else min i.toNat n

/-- `text.find(':', start, stop)`: least index in the adjusted range holding
`':'`, or `-1`. -/
def pyFindColon (text : List Char) (start stop : Int) : Int :=
  match ((List.range (pyAdjust text.length stop)).drop
      (pyAdjust text.length start)).find? (fun i => text.getD i ' ' = ':') with
  | some i => (i : Int)
  | none => -1

/-- `chunk_end = min(current_pos + max_chunk_size, len(text))` (line 87). -/
def chunkEndOf (text : List Char) (maxSize pos : Nat) : Nat :=
  min (pos + maxSize) text.length

/-- `next_speaker = text.find(':', chunk_end - 500, chunk_end)` (line 95). -/
def colonHit (text : List Char) (maxSize pos : Nat) : Int :=
  pyFindColon text ((chunkEndOf text maxSize pos : Int) - 500)
    ((chunkEndOf text maxSize pos : Int))

/-- The adjusted cut position for the iteration starting at `pos`
(formatter.py 87-97): `chunk_end` extended to `next_speaker + 50` when the
colon hit lies past `pos`. -/
def nextEnd (text : List Char) (maxSize pos : Nat) : Nat :=
  if (pos : Int) < colonHit text maxSize pos then
    (colonHit text maxSize pos + 50).toNat
  else chunkEndOf text maxSize pos

/-- The `while current_pos < len(text)` loop; `fuel` bounds the number of
iterations (with `max_chunk_size = 0` and nonempty text the Python loop does
not terminate, which surfaces here as `none`). -/
def splitGo (text : List Char) (maxSize : Nat) : Nat → Nat → Option (List (List Char))
  | 0, _ => none
  | fuel + 1, pos =>
    if pos < text.length then
      if text.length ≤ chunkEndOf text maxSize pos then some [text.drop pos]
      else
        match splitGo text maxSize fuel (nextEnd text maxSize pos) with
        | some rest =>
          some (((text.drop pos).take (nextEnd text maxSize pos - pos)) :: rest)
        | none => none
    else some []

/-- `split_text_into_chunks` (formatter.py 74-102). -/
def split_text_into_chunks (text : List Char) (maxSize : Nat := 3000) :
    Option (List (List Char)) :=
  if text.length ≤ maxSize then some [text]
  else splitGo text maxSize (text.length + 1) 0

/-! ### The generation call with retry/backoff (formatter.py 309-370).
`client.messages.create` is an oracle from the attempt number to either
response text or an exception message; `time.sleep` affects timing only, and
the backoff actually slept is recorded in `slept`. -/

inductive CallResult
  | ok (text : List Char)
  | err (msg : List Char)
deriving DecidableEq, Repr

/-- First index at which `pat` occurs in `hay` (substring search). -/
def findSub (hay pat : List Char) : Option Nat :=
  (List.range (hay.length + 1)).find? (fun i => pat.isPrefixOf (hay.drop i))

/-- Python `pat in hay`. -/
def containsSub (hay pat : List Char) : Bool := (findSub hay pat).isSome

/-- `"rate_limit" in msg or "429" in msg` (line 341). -/
def isRateMsg (m : List Char) : Bool :=
  containsSub m ("rate_limit".data) || containsSub m ("429".data)

/-- `"Connection error" in msg or "api_error" in msg or "500" in msg` (354). -/
def isTransientMsg (m : List Char) : Bool :=
  containsSub m ("Connection error".data) || containsSub m ("api_error".data) ||
    containsSub m ("500".data)

structure RetryOut where
  attempts : Nat
  slept : Nat
  response : Option (List Char)
deriving DecidableEq, Repr

/-- The `while True` retry loop (309-370); `remaining` bounds further
iterations — 3 suffices because the loop stops once `attempts >= 3`. -/
def retryGo (call : Nat → CallResult) : Nat → Nat → Nat → Nat → RetryOut
  | 0, a, _, s => ⟨a, s, none⟩
  | remaining + 1, a, b, s =>
    match call (a + 1) with
    | .ok t => ⟨a + 1, s, some t⟩
    | .err m =>
      if isRateMsg m then
        if 3 ≤ a + 1 then ⟨a + 1, s, none⟩
        else retryGo call remaining (a + 1) (2 * b) (s + b)
      else if isTransientMsg m then
        if 3 ≤ a + 1 then ⟨a + 1, s, none⟩
        else retryGo call remaining (a + 1) (2 * b) (s + b)
      else ⟨a + 1, s, none⟩

/-- One full run of the retry loop: `attempts = 0`, `backoff = 2`. -/
def retryRun (call : Nat → CallResult) : RetryOut := retryGo call 3 0 2 0

/-! ### JSON parse, repair, and per-chunk merging (formatter.py 372-432).
`json.loads` is the oracle `jparse`; `none` models `JSONDecodeError`.
Parsed dicts are modelled at the schema `{title?, segments}` with the
`.get` defaults already applied. -/

structure ChunkData where
  title : Option (List Char)
  segments : List Segment
deriving DecidableEq, Repr

/-- Text after the first occurrence of `pat` (whole string if absent). -/
def afterFirst (pat hay : List Char) : List Char :=
  match findSub hay pat with
  | some i => hay.drop (i + pat.length)
  | none => hay

/-- Text before the first occurrence of `pat` (whole string if absent). -/
def upToFirst (pat hay : List Char) : List Char :=
  match findSub hay pat with
  | some i => hay.take i
  | none => hay

/-- Markdown fence stripping (375-378): `split('```json')[1].split('```')[0]`
is the text between the first ` ```json ` and the next ` ``` `;
`split('```')[1]` is the text between the first two ` ``` `. -/
def stripFences (r : List Char) : List Char :=
  if containsSub r ("```json".data) then
    upToFirst ("```".data) (afterFirst ("```json".data) r)
  else if containsSub r ("```".data) then
    upToFirst ("```".data) (afterFirst ("```".data) r)
  else r

/-- Truthiness of `chunk_data.get("title")` (an empty title is falsy). -/
def truthyTitle : Option (List Char) → Bool
  | some t => !t.isEmpty
  | none => false

/-- `if i == 0 and chunk_data.get("title"): title = chunk_data["title"]`. -/
def titleFrom (isFirst : Bool) (cd : ChunkData) : Option (List Char) :=
  if isFirst && truthyTitle cd.title then cd.title else none

/-- `r.rfind('}', 0, stop)`: greatest index `< stop` holding `'}'`, else `-1`.
(`r.rfind('}')` is the case `stop = r.length`.) -/
def rfindBrace (r : List Char) (stop : Nat) : Int :=
  match ((List.range stop).filter (fun i => r.getD i ' ' = '}')).getLast? with
  | some i => (i : Int)
  | none => -1

/-- `last_brace = full_response.rfind('}')` (line 407). -/
def lastBraceOf (r : List Char) : Int := rfindBrace r r.length

/-- `second_last_brace = full_response.rfind('}', 0, last_brace) if last_brace > 0
else -1` (line 408). -/
def secondBraceOf (r : List Char) : Int :=
  if 0 < lastBraceOf r then rfindBrace r (lastBraceOf r).toNat else -1

/-- First repaired candidate: truncate after the second-to-last `'}'` and
append `']}'` (line 411). -/
def repair1 (r : List Char) : List Char :=
  r.take ((secondBraceOf r).toNat + 1) ++ ("]\x7d").data

/-- Second repaired candidate: truncate after the last `'}'` and append
`']}'` (line 419). -/
def repair2 (r : List Char) : List Char :=
  r.take ((lastBraceOf r).toNat + 1) ++ ("]\x7d").data

/-- The guard `last_brace > 0 and second_last_brace > 0` (line 410). -/
def braceCond (r : List Char) : Bool :=
  decide (0 < lastBraceOf r) && decide (0 < secondBraceOf r)

/-- The segment list produced by the repair path when some repair parses
(first repair preferred, second tried only after the first fails). -/
def repairedSegs (jparse : List Char → Option ChunkData) (r : List Char) :
    Option (List Segment) :=
  match jparse (repair1 r) with
  | some cd => some cd.segments
  | none =>
    match jparse (repair2 r) with
    | some cd => some cd.segments
    | none => none

/-- Per-chunk response handling (372-432): the title candidate (only ever set
for the first chunk) and the segments this chunk contributes.
The coverage test `combined_len < 0.7 * len(chunk)` is embedded as
`10 * combined < 7 * len`: `0.7` is the IEEE double `3152519739159347/2^52`
and for integer operands below `2^45` the two comparisons coincide. -/
def handleResponse (jparse : List Char → Option ChunkData) (isFirst : Bool)
    (chunk : List Char) (resp : Option (List Char)) :
    Option (List Char) × List Segment :=
  match resp with
  | none => (none, pseudo_segment_chunk chunk)
  | some r0 =>
    if r0.isEmpty then (none, pseudo_segment_chunk chunk)
    else
      match jparse (stripFences r0) with
      | some cd =>
        (titleFrom isFirst cd,
         if 10 * ((cd.segments.map (fun s => s.content.length)).sum)
             < 7 * chunk.length then
           cd.segments ++ [⟨.narration, none, chunk, []⟩]
         else cd.segments)
      | none =>
        if 0 < lastBraceOf (stripFences r0) ∧ 0 < secondBraceOf (stripFences r0) then
          match jparse (repair1 (stripFences r0)) with
          | some cd => (titleFrom isFirst cd, cd.segments)
          | none =>
            match jparse (repair2 (stripFences r0)) with
            | some cd => (titleFrom isFirst cd, cd.segments)
            | none => (none, pseudo_segment_chunk chunk)
        else (none, [])

/-- `"World Impact Transcript"`. -/
def defaultTitle : List Char := ("World Impact Transcript".data)

/-- `title or "World Impact Transcript"` (line 436). -/
def orTitle : Option (List Char) → List Char
  | some t => if t.isEmpty then defaultTitle else t
  | none => defaultTitle

/-- The `all_segments.extend(fallback)` performed inside the exception
handler itself when the retry loop gives up (lines 344-345, 357-358,
367-368).  Note the post-loop `else` branch (429-432) extends the same
fallback AGAIN, so a failed chunk's pseudo-segments appear twice; a truthy or
empty-string response has no in-loop extension. -/
def exceptExtend (resp : Option (List Char)) (chunk : List Char) : List Segment :=
  match resp with
  | none => pseudo_segment_chunk chunk
  | some _ => []

/-- Everything chunk `i` does: the retry loop (whose failure path already
extended `all_segments`), then the `if full_response:` response handling.
`call i` is the generation oracle for this chunk's attempts. -/
def chunkPass (call : Nat → Nat → CallResult) (jparse : List Char → Option ChunkData)
    (i : Nat) (chunk : List Char) : Option (List Char) × List Segment :=
  ((handleResponse jparse (i == 0) chunk (retryRun (call i)).response).1,
   exceptExtend (retryRun (call i)).response chunk
     ++ (handleResponse jparse (i == 0) chunk (retryRun (call i)).response).2)

/-- The `for i, chunk in enumerate(chunks)` loop (284-438), accumulating
`title` and `all_segments`, then building the merged result (434-438). -/
def processGo (call : Nat → Nat → CallResult) (jparse : List Char → Option ChunkData) :
    Nat → Option (List Char) → List Segment → List (List Char) →
    List Char × List Segment
  | _, title, acc, [] => (orTitle title, acc)
  | i, title, acc, c :: rest =>
    processGo call jparse (i + 1)
      (match (chunkPass call jparse i c).1 with | some t => some t | none => title)
      (acc ++ (chunkPass call jparse i c).2) rest

/-- The merged `{title, segments}` produced from the chunk list. -/
def processChunks (call : Nat → Nat → CallResult)
    (jparse : List Char → Option ChunkData) (chunks : List (List Char)) :
    List Char × List Segment :=
  processGo call jparse 0 none [] chunks

/-! ### Top level (formatter.py 628-672); exceptions are modelled with
`Except`, the environment (API key, template file) as an explicit record.
Document rendering (python-docx styling) is out of scope; a rendered document
is identified with the (title, segments) data handed to the renderer. -/

structure Env where
  apiKey : Option (List Char)
  templateOk : Bool
deriving DecidableEq, Repr

/-- `get_claude_client` (65-71): raises when no API key is configured. -/
def get_claude_client (env : Env) : Except (List Char) Unit :=
  match env.apiKey with
  | none => .error ("ANTHROPIC_API_KEY not found in environment".data)
  | some _ => .ok ()

/-- `get_template_path` (33-62): raises when the template file is missing. -/
def get_template_path (env : Env) : Except (List Char) Unit :=
  if env.templateOk then .ok ()
  else .error ("Template file not found".data)

/-- `format_transcript_with_claude` (213-542): acquire client and template,
then run the chunk loop. The chunker's fuel cannot run out at
`max_chunk_size = 3000` (proved below); surfaced as an error for totality. -/
def format_transcript_with_claude (env : Env) (call : Nat → Nat → CallResult)
    (jparse : List Char → Option ChunkData) (text : List Char) :
    Except (List Char) (List Char × List Segment) := do
  _ ← get_claude_client env
  _ ← get_template_path env
  match split_text_into_chunks text with
  | some chunks => .ok (processChunks call jparse chunks)
  | none => .error ("unreachable".data)

/-- `format_basic_transcript` (628-661): wraps the raw text as one document
titled `"Transcript"`; its own failure (missing template) is re-raised. -/
def format_basic_transcript (env : Env) (text : List Char) :
    Except (List Char) (List Char × List Char) :=
  match get_template_path env with
  | .ok _ => .ok (("Transcript".data), text)
  | .error e => .error e

/-- The two document shapes a caller can receive. -/
inductive OutDoc
  | ai (title : List Char) (segments : List Segment)
  | basic (title : List Char) (body : List Char)
deriving DecidableEq, Repr

/-- `format_transcript` (664-671): try the AI path, fall back to the basic
path on any exception; an exception of the basic path propagates. -/
def format_transcript (env : Env) (call : Nat → Nat → CallResult)
    (jparse : List Char → Option ChunkData) (text : List Char) :
    Except (List Char) OutDoc :=
  match format_transcript_with_claude env call jparse text with
  | .ok p => .ok (.ai p.1 p.2)
  | .error _ =>
    match format_basic_transcript env text with
    | .ok p => .ok (.basic p.1 p.2)
    | .error e => .error e

/-! ## Theorems -/

/-- `" ".join([x]) = x`. -/
theorem joinSp_singleton (l : List Char) : joinSp [l] = l := by
  simp [joinSp, List.intercalate]

/-- The rule-based segmenter never returns an empty list (lines 209-210). -/
theorem pseudo_segment_chunk_length_pos (raw : List Char) :
    1 ≤ (pseudo_segment_chunk raw).length := by
  have hrw : pseudo_segment_chunk raw =
        (if (flush_buffer ((linesOf raw).foldl stepLine ⟨[], [], none, none⟩)).segs.isEmpty
         then [⟨.narration, none, raw, []⟩]
         else (flush_buffer ((linesOf raw).foldl stepLine ⟨[], [], none, none⟩)).segs) := rfl
  rw [hrw]
  split
  · simp
  · rename_i h
    exact List.length_pos.mpr (by simpa [List.isEmpty_iff] using h)

/-- C6: for every input string the rule-based segmenter returns at least one
segment; and when no non-blank line exists it returns exactly one narration
segment whose content is the raw input text. -/
theorem pseudo_segment_chunk_nonempty (raw : List Char) :
    1 ≤ (pseudo_segment_chunk raw).length ∧
    (linesOf raw = [] →
      pseudo_segment_chunk raw = [⟨.narration, none, raw, []⟩]) := by
  refine ⟨pseudo_segment_chunk_length_pos raw, fun h => ?_⟩
  simp [pseudo_segment_chunk, h, flush_buffer]

/-- C6 witness: the empty string has no non-blank line and yields exactly the
single narration segment carrying the raw (empty) text. -/
theorem pseudo_segment_chunk_nonempty_witness :
    1 ≤ (pseudo_segment_chunk []).length ∧
    pseudo_segment_chunk [] = [⟨.narration, none, [], []⟩] :=
  ⟨(pseudo_segment_chunk_nonempty []).1, (pseudo_segment_chunk_nonempty []).2 rfl⟩

/-- C10: line classification priority in the rule-based segmenter.  A line
containing `'♪'` is flushed as a music segment no matter what else it
matches; otherwise a line on which the scripture pattern *searches* (anywhere
in the line) is flushed as a scripture segment even if it starts with a
`Name:` label; only a line matching neither is treated as a speaker opening
(buffered, emitting nothing yet).  Stated for pre-stripped non-blank lines,
which is what the line loop receives. -/
theorem stepLine_priority (st : SegState) (ln : List Char)
    (hstrip : stripPy ln = ln) (hne : ln ≠ []) :
    (musicIn ln = true →
      stepLine st ln =
        ⟨(flush_buffer st).segs ++ [⟨.music, none, ln, []⟩], [], none, none⟩) ∧
    (musicIn ln = false → scripture_search ln = true →
      stepLine st ln =
        ⟨(flush_buffer st).segs ++ [⟨.scripture, none, ln, []⟩], [], none, none⟩) ∧
    (musicIn ln = false → scripture_search ln = false →
      ∀ nm rest, speaker_match ln = some (nm, rest) →
        stepLine st ln = ⟨(flush_buffer st).segs, [rest], some .speaker, some nm⟩) := by
  have hcontent : stripPy (joinSp [ln]) = ln := by rw [joinSp_singleton, hstrip]
  refine ⟨fun hm => ?_, fun hm hs => ?_, fun hm hs nm rest hsp => ?_⟩
  · simp [stepLine, hm, flush_buffer, hcontent, hne]
  · simp [stepLine, hm, hs, flush_buffer, hcontent, hne]
  · simp [stepLine, hm, hs, hsp]

/-- `pyAdjust` of a nonnegative index. -/
theorem pyAdjust_natCast (n k : Nat) : pyAdjust n (k : Int) = min k n := by
  simp [pyAdjust]

/-- The colon search never reports a hit at or beyond the adjusted stop. -/
theorem pyFindColon_le (text : List Char) (s e : Int) :
    pyFindColon text s e ≤ (pyAdjust text.length e : Int) - 1 := by
  unfold pyFindColon
  cases hf : ((List.range (pyAdjust text.length e)).drop
      (pyAdjust text.length s)).find? (fun i => text.getD i ' ' = ':') with
  | none => dsimp only; omega
  | some i =>
    have hi : i ∈ (List.range (pyAdjust text.length e)).drop (pyAdjust text.length s) :=
      List.mem_of_find?_eq_some hf
    have hlt : i < pyAdjust text.length e :=
      List.mem_range.mp (List.drop_subset _ _ hi)
    dsimp only
    omega

/-- The colon hit is below `pos + maxSize` in a non-final iteration. -/
theorem colonHit_le (text : List Char) (maxSize pos : Nat)
    (h : pos + maxSize ≤ text.length) :
    colonHit text maxSize pos ≤ (pos + maxSize : Int) - 1 := by
  have hb0 := pyFindColon_le text ((chunkEndOf text maxSize pos : Int) - 500)
    ((chunkEndOf text maxSize pos : Int))
  rw [pyAdjust_natCast] at hb0
  unfold colonHit
  unfold chunkEndOf at hb0 ⊢
  omega

/-- In a non-final iteration the cut is at `pos + maxSize` exactly, or a colon
extension lands in `[pos + 51, pos + maxSize + 49]`. -/
theorem nextEnd_cases (text : List Char) (maxSize pos : Nat)
    (h : pos + maxSize < text.length) :
    nextEnd text maxSize pos = pos + maxSize ∨
      (pos + 51 ≤ nextEnd text maxSize pos ∧
        nextEnd text maxSize pos ≤ pos + maxSize + 49) := by
  have hb := colonHit_le text maxSize pos (by omega)
  have hce : chunkEndOf text maxSize pos = pos + maxSize := by
    unfold chunkEndOf; omega
  unfold nextEnd
  split
  · rename_i hns
    right
    omega
  · left
    exact hce

/-- With `maxSize = 0` the loop makes no progress: `nextEnd = pos`. -/
theorem nextEnd_zero (text : List Char) (pos : Nat) (h : pos < text.length) :
    nextEnd text 0 pos = pos := by
  have hb := colonHit_le text 0 pos (by omega)
  have hce : chunkEndOf text 0 pos = pos := by
    unfold chunkEndOf; omega
  unfold nextEnd
  rw [if_neg (by omega), hce]

/-- With `maxSize = 0` and a position inside the text the loop diverges. -/
theorem splitGo_zero_none (text : List Char) :
    ∀ fuel pos, pos < text.length → splitGo text 0 fuel pos = none := by
  intro fuel
  induction fuel with
  | zero => intro pos _; rfl
  | succ f ih =>
    intro pos h
    have h2 : ¬ (text.length ≤ chunkEndOf text 0 pos) := by
      unfold chunkEndOf; omega
    simp only [splitGo, if_pos h, if_neg h2, nextEnd_zero text pos h, ih pos h]

/-- Past the end of the text the loop emits nothing. -/
theorem splitGo_end (text : List Char) (maxSize fuel pos : Nat)
    (h : text.length ≤ pos) (cs : List (List Char))
    (hs : splitGo text maxSize fuel pos = some cs) : cs = [] := by
  cases fuel with
  | zero => simp [splitGo] at hs
  | succ f =>
    rw [splitGo, if_neg (by omega)] at hs
    exact (Option.some_inj.mp hs).symm

/-- Reassembling a split at `e ≥ p`. -/
theorem take_drop_append (l : List Char) (p e : Nat) (h : p ≤ e) :
    (l.drop p).take (e - p) ++ l.drop e = l.drop p := by
  have h2 : l.drop e = (l.drop p).drop (e - p) := by
    rw [List.drop_drop]
    congr 1
    omega
  rw [h2, List.take_append_drop]

/-- Chunks of the loop concatenate to the unprocessed suffix. -/
theorem splitGo_flatten (text : List Char) (maxSize : Nat) :
    ∀ fuel pos cs, splitGo text maxSize fuel pos = some cs →
      cs.flatten = text.drop pos := by
  intro fuel
  induction fuel with
  | zero => intro pos cs h; simp [splitGo] at h
  | succ f ih =>
    intro pos cs h
    rw [splitGo] at h
    split at h
    · rename_i hlt
      split at h
      · rename_i hend
        cases h
        simp [List.drop_eq_nil_of_le]
      · rename_i hend
        cases hm : splitGo text maxSize f (nextEnd text maxSize pos) with
        | none => rw [hm] at h; cases h
        | some rest =>
          rw [hm] at h
          cases h
          have hrest := ih _ _ hm
          have hpm : pos + maxSize < text.length := by
            unfold chunkEndOf at hend; omega
          have hle : pos ≤ nextEnd text maxSize pos := by
            rcases nextEnd_cases text maxSize pos hpm with h1 | h1 <;> omega
          simp only [List.flatten_cons, hrest]
          exact take_drop_append text pos (nextEnd text maxSize pos) hle
    · rename_i hge
      cases h
      simp [List.drop_eq_nil_of_le (by omega : text.length ≤ pos)]

/-- No chunk emitted by the loop is empty. -/
theorem splitGo_ne_nil (text : List Char) (maxSize : Nat) :
    ∀ fuel pos cs, splitGo text maxSize fuel pos = some cs →
      ∀ c ∈ cs, c ≠ [] := by
  intro fuel
  induction fuel with
  | zero => intro pos cs h; simp [splitGo] at h
  | succ f ih =>
    intro pos cs h
    rw [splitGo] at h
    split at h
    · rename_i hlt
      split at h
      · rename_i hend
        cases h
        intro c hc
        rw [List.mem_singleton] at hc
        subst hc
        intro hnil
        have := congrArg List.length hnil
        simp at this
        omega
      · rename_i hend
        cases hm : splitGo text maxSize f (nextEnd text maxSize pos) with
        | none => rw [hm] at h; cases h
        | some rest =>
          rw [hm] at h
          cases h
          intro c hc
          rcases List.mem_cons.mp hc with hc | hc
          · subst hc
            cases maxSize with
            | zero =>
              rw [splitGo_zero_none text f _ (by rw [nextEnd_zero text pos hlt]; omega)] at hm
              cases hm
            | succ m =>
              have hpm : pos + (m + 1) < text.length := by
                unfold chunkEndOf at hend; omega
              have hlt2 : pos < nextEnd text (m + 1) pos := by
                rcases nextEnd_cases text (m + 1) pos hpm with h1 | h1 <;> omega
              intro hnil
              have := congrArg List.length hnil
              simp [List.length_take, List.length_drop] at this
              omega
          · exact ih _ _ hm c hc
    · rename_i hge
      cases h
      intro c hc
      simp at hc

/-- Enough fuel: the loop answers whenever `maxSize ≥ 1`. -/
theorem splitGo_isSome (text : List Char) (maxSize : Nat) (hm : 1 ≤ maxSize) :
    ∀ fuel pos, text.length - pos < fuel → (splitGo text maxSize fuel pos).isSome := by
  intro fuel
  induction fuel with
  | zero => intro pos h; omega
  | succ f ih =>
    intro pos h
    rw [splitGo]
    split
    · rename_i hlt
      split
      · simp
      · rename_i hend
        have hpm : pos + maxSize < text.length := by
          unfold chunkEndOf at hend; omega
        have hlt2 : pos < nextEnd text maxSize pos := by
          rcases nextEnd_cases text maxSize pos hpm with h1 | h1 <;> omega
        have hfuel : text.length - nextEnd text maxSize pos < f := by omega
        have := ih (nextEnd text maxSize pos) hfuel
        cases hms : splitGo text maxSize f (nextEnd text maxSize pos) with
        | none => rw [hms] at this; simp at this
        | some rest => simp [hms]
    · simp

/-- C2 (amended): concatenating the returned chunks always reproduces the
input exactly, a text within the size bound is returned as the single whole
chunk, and — amended — no chunk is empty *provided the input text is
nonempty* (for empty input the single returned chunk is the empty string).
A positive size also guarantees the loop terminates with a result. -/
theorem split_reconstructs (text : List Char) (maxSize : Nat) :
    (text.length ≤ maxSize → split_text_into_chunks text maxSize = some [text]) ∧
    (1 ≤ maxSize → (split_text_into_chunks text maxSize).isSome) ∧
    (∀ cs, split_text_into_chunks text maxSize = some cs →
      cs.flatten = text ∧ (text ≠ [] → ∀ c ∈ cs, c ≠ [])) := by
  refine ⟨fun h => by simp [split_text_into_chunks, h], fun hm => ?_, fun cs h => ?_⟩
  · unfold split_text_into_chunks
    split
    · simp
    · exact splitGo_isSome text maxSize hm _ 0 (by omega)
  · unfold split_text_into_chunks at h
    split at h
    · cases h
      refine ⟨by simp, fun ht c hc => ?_⟩
      rw [List.mem_singleton] at hc
      subst hc
      exact ht
    · refine ⟨by simpa using splitGo_flatten text maxSize _ 0 cs h, fun _ => ?_⟩
      exact splitGo_ne_nil text maxSize _ 0 cs h

/-- C2 counterexample: for the empty input the chunker returns one chunk, and
that chunk is empty — refuting the unconditional "no chunk is empty". -/
theorem split_empty_chunk_cex :
    split_text_into_chunks ([] : List Char) 3000 = some [[]] ∧
    ¬ (∀ c ∈ [([] : List Char)], c ≠ []) := ⟨rfl, by simp⟩

def xText : List Char := List.replicate 250 'x'

def xChunks : List (List Char) :=
  [List.replicate 100 'x', List.replicate 100 'x', List.replicate 50 'x']

/-- C2 witness: a 250-character text at size 100 splits into 100+100+50,
which concatenates back and has no empty chunk. -/
theorem split_reconstructs_witness :
    split_text_into_chunks xText 100 = some xChunks ∧
    xChunks.flatten = xText ∧ (∀ c ∈ xChunks, c ≠ []) :=
  ⟨by decide,
   ((split_reconstructs xText 100).2.2 xChunks (by decide)).1,
   ((split_reconstructs xText 100).2.2 xChunks (by decide)).2 (by decide)⟩

/-- Bounds on the lengths of non-final chunks. -/
theorem splitGo_nonfinal (text : List Char) (maxSize : Nat) :
    ∀ fuel pos cs, splitGo text maxSize fuel pos = some cs →
      ∀ c ∈ cs.dropLast,
        c.length = maxSize ∨ (51 ≤ c.length ∧ c.length ≤ maxSize + 49) := by
  intro fuel
  induction fuel with
  | zero => intro pos cs h; simp [splitGo] at h
  | succ f ih =>
    intro pos cs h
    rw [splitGo] at h
    split at h
    · rename_i hlt
      split at h
      · rename_i hend
        cases h
        intro c hc
        simp at hc
      · rename_i hend
        cases hm : splitGo text maxSize f (nextEnd text maxSize pos) with
        | none => rw [hm] at h; cases h
        | some rest =>
          rw [hm] at h
          cases h
          intro c hc
          cases rest with
          | nil => simp at hc
          | cons r rs =>
            rw [List.dropLast_cons₂] at hc
            rcases List.mem_cons.mp hc with hc | hc
            · subst hc
              have hpm : pos + maxSize < text.length := by
                unfold chunkEndOf at hend; omega
              have hne : nextEnd text maxSize pos < text.length := by
                by_contra hge
                have := splitGo_end text maxSize f (nextEnd text maxSize pos)
                  (by omega) _ hm
                cases this
              have hlen : ((text.drop pos).take (nextEnd text maxSize pos - pos)).length
                  = nextEnd text maxSize pos - pos := by
                simp [List.length_take, List.length_drop]
                omega
              rw [hlen]
              rcases nextEnd_cases text maxSize pos hpm with h1 | h1
              · left; omega
              · right; omega
            · exact ih _ _ hm c hc
    · rename_i hge
      cases h
      intro c hc
      simp at hc

/-- C7 (amended): every chunk except the last is cut
either exactly at `pos + max_chunk_size`, or — when the backward colon search
hits past `pos` — at `colon + 50`, which yields a length between 51 and
`max_chunk_size + 49`.  The soft bound is exceeded by at most 49; but
(contrary to the claim) a colon-extended chunk *can* fall short of
`max_chunk_size`, by up to about 450. -/
theorem split_nonfinal_bounds (text : List Char) (maxSize : Nat)
    (cs : List (List Char))
    (h : split_text_into_chunks text maxSize = some cs) :
    ∀ c ∈ cs.dropLast,
      c.length = maxSize ∨ (51 ≤ c.length ∧ c.length ≤ maxSize + 49) := by
  unfold split_text_into_chunks at h
  split at h
  · cases h
    intro c hc
    simp at hc
  · exact splitGo_nonfinal text maxSize _ 0 cs h

/-- A 300-character text whose only colon sits at index 10: the first cut is
extended to `10 + 50 = 60`. -/
def colonText : List Char := List.replicate 10 'a' ++ (':' :: List.replicate 289 'a')

/-- C7 counterexample: at size 100 the chunker yields lengths
`[60, 100, 100, 40]` on `colonText` — a *non-final* chunk of length 60 falls
short of `max_chunk_size = 100`, refuting "never falls short of it". -/
theorem split_short_chunk_cex :
    (split_text_into_chunks colonText 100).map (fun cs => cs.map List.length)
      = some [60, 100, 100, 40] ∧ 60 < 100 := ⟨by decide, by decide⟩

/-- C7 witness: on the colon-free `xText` every non-final chunk has length
exactly 100. -/
theorem split_nonfinal_bounds_witness :
    (List.replicate 100 'x' : List Char).length = 100 ∨
      (51 ≤ (List.replicate 100 'x' : List Char).length ∧
        (List.replicate 100 'x' : List Char).length ≤ 100 + 49) :=
  split_nonfinal_bounds xText 100 xChunks (by decide)
    (List.replicate 100 'x') (by decide)

/-- C10 witness: `"Amos: see Amos 1:2 ♪"` matches all three patterns and is
classified music; `"Amos: see Amos 1:2"` matches speaker and scripture and is
classified scripture; `"Amos: hello"` matches only the speaker pattern and
opens a speaker buffer. -/
theorem stepLine_priority_witness :
    stepLine ⟨[], [], none, none⟩ (("Amos: see Amos 1:2 ♪").data) =
      ⟨[⟨.music, none, ("Amos: see Amos 1:2 ♪").data, []⟩], [], none, none⟩ ∧
    speaker_match (("Amos: see Amos 1:2 ♪").data) ≠ none ∧
    scripture_search (("Amos: see Amos 1:2 ♪").data) = true ∧
    stepLine ⟨[], [], none, none⟩ (("Amos: see Amos 1:2").data) =
      ⟨[⟨.scripture, none, ("Amos: see Amos 1:2").data, []⟩], [], none, none⟩ ∧
    speaker_match (("Amos: see Amos 1:2").data) ≠ none ∧
    stepLine ⟨[], [], none, none⟩ (("Amos: hello").data) =
      ⟨[], [("hello").data], some .speaker, some (("Amos").data)⟩ :=
  ⟨(stepLine_priority _ _ (by decide) (by decide)).1 (by decide),
   by decide, by decide,
   (stepLine_priority _ _ (by decide) (by decide)).2.1 (by decide) (by decide),
   by decide,
   (stepLine_priority _ _ (by decide) (by decide)).2.2 (by decide) (by decide)
     (("Amos").data) (("hello").data) (by decide)⟩

/-! ### Retry loop (C5) -/

/-- A retryable failure before the cap: sleep the current backoff, double it,
try again. -/
theorem retryGo_retryable_step (call : Nat → CallResult) (r a b s : Nat)
    (m : List Char) (hm : call (a + 1) = .err m)
    (hr : (isRateMsg m || isTransientMsg m) = true) (ha : a + 1 < 3) :
    retryGo call (r + 1) a b s = retryGo call r (a + 1) (2 * b) (s + b) := by
  have h3 : ¬ (3 ≤ a + 1) := by omega
  rw [retryGo, hm]
  rcases Bool.or_eq_true_iff.mp hr with h | h
  · simp [h, h3]
  · by_cases h2 : isRateMsg m <;> simp [h, h2, h3]

/-- A retryable failure at the cap stops with no response and no extra
sleep. -/
theorem retryGo_retryable_stop (call : Nat → CallResult) (r a b s : Nat)
    (m : List Char) (hm : call (a + 1) = .err m)
    (hr : (isRateMsg m || isTransientMsg m) = true) (ha : 3 ≤ a + 1) :
    retryGo call (r + 1) a b s = ⟨a + 1, s, none⟩ := by
  rw [retryGo, hm]
  rcases Bool.or_eq_true_iff.mp hr with h | h
  · simp [h, ha]
  · by_cases h2 : isRateMsg m <;> simp [h, h2, ha]

/-- C5: when each of chunk `i`'s first three generation attempts fails with a
rate-limit (or transient network/server) error, exactly 3 attempts are made —
no more, no fewer — the backoff slept totals 2 + 4 = 6 time units (the third
failure triggers fallback with no further wait), no raw text is produced, and
the chunk's segments are supplied by the rule-based fallback segmenter
instead of an exception propagating.  (The code in fact appends the fallback
segments twice: once inside the exception handler, lines 344-345, and again
in the no-response branch, lines 431-432 — still fallback-supplied, still no
exception.) -/
theorem retry_cap_fallback (call : Nat → Nat → CallResult)
    (jparse : List Char → Option ChunkData) (i : Nat) (chunk : List Char)
    (h : ∀ a, 1 ≤ a → a ≤ 3 → ∃ m, call i a = .err m ∧
        (isRateMsg m || isTransientMsg m) = true) :
    retryRun (call i) = ⟨3, 6, none⟩ ∧
    (chunkPass call jparse i chunk).2
      = pseudo_segment_chunk chunk ++ pseudo_segment_chunk chunk := by
  obtain ⟨m1, hm1, hr1⟩ := h 1 (by omega) (by omega)
  obtain ⟨m2, hm2, hr2⟩ := h 2 (by omega) (by omega)
  obtain ⟨m3, hm3, hr3⟩ := h 3 (by omega) (by omega)
  have e1 : retryGo (call i) 3 0 2 0 = retryGo (call i) 2 1 4 2 := by
    simpa using retryGo_retryable_step (call i) 2 0 2 0 m1 hm1 hr1 (by omega)
  have e2 : retryGo (call i) 2 1 4 2 = retryGo (call i) 1 2 8 6 := by
    simpa using retryGo_retryable_step (call i) 1 1 4 2 m2 hm2 hr2 (by omega)
  have e3 : retryGo (call i) 1 2 8 6 = ⟨3, 6, none⟩ := by
    simpa using retryGo_retryable_stop (call i) 0 2 8 6 m3 hm3 hr3 (by omega)
  have hrun : retryRun (call i) = ⟨3, 6, none⟩ := by
    unfold retryRun
    rw [e1, e2, e3]
  refine ⟨hrun, ?_⟩
  unfold chunkPass
  rw [hrun]
  rfl

/-- An oracle that always fails with a rate-limit error. -/
def callRate : Nat → Nat → CallResult := fun _ _ => .err (("rate_limit exceeded").data)

/-- `json.loads` rejecting everything it is shown.  In every run below that
uses it, the only strings it is consulted on are not valid JSON, so it is
consistent with Python's `json.loads` there. -/
def jparseNone : List Char → Option ChunkData := fun _ => none

/-- C5 witness: three rate-limit failures on the chunk `"Bob: hi"`. -/
theorem retry_cap_fallback_witness :
    retryRun (callRate 0) = ⟨3, 6, none⟩ ∧
    (chunkPass callRate jparseNone 0 (("Bob: hi").data)).2
      = pseudo_segment_chunk (("Bob: hi").data)
        ++ pseudo_segment_chunk (("Bob: hi").data) :=
  retry_cap_fallback callRate jparseNone 0 (("Bob: hi").data)
    (fun _ _ _ => ⟨("rate_limit exceeded").data, rfl, by decide⟩)

/-! ### Coverage guard (C4) -/

/-- C4: on the direct-parse path, when the parsed segments' total content
length is under 70% of the chunk length, exactly one narration segment whose
content is the entire raw chunk is appended AFTER the parsed segments, all of
which are kept; at or above 70% nothing is appended. -/
theorem coverage_guard_additive (jparse : List Char → Option ChunkData)
    (isFirst : Bool) (chunk r0 : List Char) (cd : ChunkData)
    (h0 : r0 ≠ []) (hp : jparse (stripFences r0) = some cd) :
    (10 * ((cd.segments.map (fun s => s.content.length)).sum) < 7 * chunk.length →
      (handleResponse jparse isFirst chunk (some r0)).2
        = cd.segments ++ [⟨.narration, none, chunk, []⟩]) ∧
    (7 * chunk.length ≤ 10 * ((cd.segments.map (fun s => s.content.length)).sum) →
      (handleResponse jparse isFirst chunk (some r0)).2 = cd.segments) := by
  have hne : r0.isEmpty = false := by simpa [List.isEmpty_iff] using h0
  constructor
  · intro hlt
    simp [handleResponse, hne, hp, hlt]
  · intro hge
    simp [handleResponse, hne, hp, Nat.not_lt.mpr hge]

/-- A well-formed model response: valid JSON, no title, one two-character
narration segment. -/
def respW : List Char :=
  ("\x7b\"segments\": [\x7b\"type\": \"narration\", \"content\": \"ab\"\x7d]\x7d").data

def cdW : ChunkData := ⟨none, [⟨.narration, none, ("ab").data, []⟩]⟩

/-- `json.loads` for the coverage runs: accepts exactly `respW` (which is
valid JSON denoting `cdW`); consistent with Python on the strings
consulted. -/
def jparseW : List Char → Option ChunkData :=
  fun s => if s = respW then some cdW else none

/-- C4 witness: 2 parsed characters against a 6-character chunk (33% < 70%)
appends the raw-chunk narration segment; against a 2-character chunk
(100% ≥ 70%) nothing is appended. -/
theorem coverage_guard_additive_witness :
    (handleResponse jparseW false (("abcdef").data) (some respW)).2
      = cdW.segments ++ [⟨.narration, none, ("abcdef").data, []⟩] ∧
    (handleResponse jparseW false (("ab").data) (some respW)).2 = cdW.segments :=
  ⟨(coverage_guard_additive jparseW false (("abcdef").data) respW cdW
      (by decide) (by decide)).1 (by decide),
   (coverage_guard_additive jparseW false (("ab").data) respW cdW
      (by decide) (by decide)).2 (by decide)⟩

/-! ### JSON repair (C3) -/

/-- C3 (amended): when direct parse fails AND the response holds a `'}'` at a
positive index with another `'}'` at a positive index before it, up to two
repairs are attempted in order — truncate at the second-to-last `'}'` plus
`']}'`, then (only if that re-parse fails) truncate at the last `'}'` plus
`']}'` — re-parsing after each, and the rule-based fallback is invoked
exactly when the second re-parse also fails.  But when the brace guard fails,
no repair is attempted and no fallback occurs: the chunk contributes zero
segments. -/
theorem repair_flow (jparse : List Char → Option ChunkData) (isFirst : Bool)
    (chunk r0 : List Char) (h0 : r0 ≠ [])
    (hfail : jparse (stripFences r0) = none) :
    (0 < lastBraceOf (stripFences r0) ∧ 0 < secondBraceOf (stripFences r0) →
      ((∀ cd, jparse (repair1 (stripFences r0)) = some cd →
          handleResponse jparse isFirst chunk (some r0)
            = (titleFrom isFirst cd, cd.segments)) ∧
       (jparse (repair1 (stripFences r0)) = none →
          ∀ cd, jparse (repair2 (stripFences r0)) = some cd →
            handleResponse jparse isFirst chunk (some r0)
              = (titleFrom isFirst cd, cd.segments)) ∧
       (jparse (repair1 (stripFences r0)) = none →
          jparse (repair2 (stripFences r0)) = none →
            handleResponse jparse isFirst chunk (some r0)
              = (none, pseudo_segment_chunk chunk)))) ∧
    (¬ (0 < lastBraceOf (stripFences r0) ∧ 0 < secondBraceOf (stripFences r0)) →
      handleResponse jparse isFirst chunk (some r0) = (none, [])) := by
  have hne : r0.isEmpty = false := by simpa [List.isEmpty_iff] using h0
  refine ⟨fun hbr => ⟨fun cd h1 => ?_, fun h1 cd h2 => ?_, fun h1 h2 => ?_⟩,
    fun hbr => ?_⟩
  · simp [handleResponse, hne, hfail, hbr, h1]
  · simp [handleResponse, hne, hfail, hbr, h1, h2]
  · simp [handleResponse, hne, hfail, hbr, h1, h2]
  · simp [handleResponse, hne, hfail, hbr]

/-- C3 counterexample: the response `"hello"` fails direct parse and holds no
`'}'`, so the brace guard fails.  All repair attempts (zero of them) have
failed to yield a parse, yet — refuting the claim — the rule-based fallback
is NOT invoked: the chunk contributes zero segments, although the fallback
would have produced at least one.  (`jparseNone` agrees with `json.loads`
here: `"hello"` is the only string consulted and is invalid JSON.) -/
theorem repair_missing_brace_cex :
    (handleResponse jparseNone true (("hi").data) (some (("hello").data))).2 = []
      ∧ pseudo_segment_chunk (("hi").data) ≠ [] := ⟨rfl, by decide⟩

/-- A truncated model response: valid JSON cut off before the closing `']}'`,
with two complete segment objects (hence two `'}'` at positive indices). -/
def respT : List Char :=
  ("\x7b\"title\": \"T\", \"segments\": [\x7b\"type\": \"narration\", \"content\": \"x\"\x7d, \x7b\"type\": \"narration\", \"content\": \"y\"\x7d").data

/-- The first repair of `respT`: truncation at the second-to-last `'}'` plus
`']}'`, which IS valid JSON. -/
def repairedT : List Char :=
  ("\x7b\"title\": \"T\", \"segments\": [\x7b\"type\": \"narration\", \"content\": \"x\"\x7d]\x7d").data

def cdT : ChunkData := ⟨some (("T").data), [⟨.narration, none, ("x").data, []⟩]⟩

/-- `json.loads` for the C3 witness run: rejects the truncated `respT`,
accepts its first repair `repairedT` (valid JSON denoting `cdT`); consistent
with Python on every string consulted. -/
def jparseT : List Char → Option ChunkData :=
  fun s => if s = repairedT then some cdT else none

/-- C3 witness: the truncated `respT` is repaired by the first strategy and
the repaired segments (plus title) are used. -/
theorem repair_flow_witness :
    handleResponse jparseT true (("c").data) (some respT)
      = (titleFrom true cdT, cdT.segments) :=
  ((repair_flow jparseT true (("c").data) respT (by decide) (by decide)).1
      (by decide)).1 cdT (by decide)

/-! ### Merging (C1) -/

/-- The chunk loop appends each chunk's contribution in order. -/
theorem processGo_segs (call : Nat → Nat → CallResult)
    (jparse : List Char → Option ChunkData) :
    ∀ (chunks : List (List Char)) (i : Nat) (title : Option (List Char))
      (acc : List Segment),
      (processGo call jparse i title acc chunks).2
        = acc ++ ((chunks.enumFrom i).map
            (fun p => (chunkPass call jparse p.1 p.2).2)).flatten := by
  intro chunks
  induction chunks with
  | nil => intro i t acc; simp [processGo]
  | cons c rest ih =>
    intro i t acc
    rw [processGo, ih]
    simp [List.enumFrom, List.append_assoc]

/-- C1 (amended): the merged result's segment sequence is the concatenation,
in chunk order, of the per-chunk segment lists.  The second conjunct is an
exhaustive characterisation of zero contribution, with no hypothesis on the
chunk: a chunk contributes zero segments only when its response is truthy and
either (a) it direct-parses to an empty segment list AND the chunk itself is
the empty string (only then does the coverage guard `0 < 0.7*0` fail to
append the safety segment; the chunker produces that chunk exactly for empty
input), or (b) direct parse fails and then either the two-brace repair guard
fails (no repair, no fallback) or a repaired parse yields an empty segment
list.  Every other chunk contributes at least one segment. -/
theorem merge_concat_order (call : Nat → Nat → CallResult)
    (jparse : List Char → Option ChunkData) (chunks : List (List Char)) :
    (processChunks call jparse chunks).2
      = ((chunks.enum).map (fun p => (chunkPass call jparse p.1 p.2).2)).flatten ∧
    (∀ i c, (chunkPass call jparse i c).2 = [] →
      ∃ r0, (retryRun (call i)).response = some r0 ∧ r0 ≠ [] ∧
        ((∃ cd, jparse (stripFences r0) = some cd ∧ cd.segments = [] ∧ c = []) ∨
         (jparse (stripFences r0) = none ∧
           (braceCond (stripFences r0) = false ∨
             repairedSegs jparse (stripFences r0) = some [])))) := by
  constructor
  · unfold processChunks
    rw [processGo_segs]
    rfl
  · intro i c hz
    unfold chunkPass at hz
    have hpseudo : pseudo_segment_chunk c ≠ [] := by
      have := pseudo_segment_chunk_length_pos c
      intro hnil
      rw [hnil] at this
      simp at this
    cases hresp : (retryRun (call i)).response with
    | none =>
      rw [hresp] at hz
      have hz2 : pseudo_segment_chunk c
          ++ (handleResponse jparse (i == 0) c none).2 = [] := hz
      rcases List.append_eq_nil.mp hz2 with ⟨h1, _⟩
      exact absurd h1 hpseudo
    | some r0 =>
      rw [hresp] at hz
      have hz2 : (handleResponse jparse (i == 0) c (some r0)).2 = [] := by
        have : exceptExtend (some r0) c
            ++ (handleResponse jparse (i == 0) c (some r0)).2 = [] := hz
        simpa [exceptExtend] using this
      clear hz
      have hz := hz2
      clear hz2
      by_cases hr0 : r0.isEmpty
      · rw [handleResponse] at hz
        rw [if_pos hr0] at hz
        exact absurd hz hpseudo
      · have hr0' : r0 ≠ [] := by simpa [List.isEmpty_iff] using hr0
        refine ⟨r0, rfl, hr0', ?_⟩
        cases hj : jparse (stripFences r0) with
        | some cd =>
          rw [handleResponse, if_neg hr0, hj] at hz
          dsimp at hz
          by_cases hcov :
              10 * ((cd.segments.map (fun s => s.content.length)).sum)
                < 7 * c.length
          · rw [if_pos hcov] at hz
            simp at hz
          · rw [if_neg hcov] at hz
            refine Or.inl ⟨cd, rfl, hz, ?_⟩
            rw [hz] at hcov
            have hsum : ((([] : List Segment)).map (fun s => s.content.length)).sum
                = 0 := rfl
            rw [hsum] at hcov
            have hlen : c.length = 0 := by omega
            exact List.eq_nil_of_length_eq_zero hlen
        | none =>
          refine Or.inr ⟨rfl, ?_⟩
          rw [handleResponse, if_neg hr0, hj] at hz
          dsimp at hz
          by_cases hbr : 0 < lastBraceOf (stripFences r0) ∧
              0 < secondBraceOf (stripFences r0)
          · right
            rw [if_pos hbr] at hz
            unfold repairedSegs
            cases h1 : jparse (repair1 (stripFences r0)) with
            | some cd => rw [h1] at hz; simp at hz ⊢; simpa using hz
            | none =>
              rw [h1] at hz
              cases h2 : jparse (repair2 (stripFences r0)) with
              | some cd => rw [h2] at hz; simp at hz ⊢; simpa using hz
              | none => rw [h2] at hz; exact absurd hz hpseudo
          · left
            unfold braceCond
            simp only [Bool.and_eq_false_iff]
            rcases Decidable.not_and_iff_or_not.mp hbr with h | h
            · left; simpa using h
            · right; simpa using h

/-- The oracle answering the unparseable, brace-free `"hello"`. -/
def callHello : Nat → Nat → CallResult := fun _ _ => .ok (("hello").data)

/-- C1 counterexample: a single-chunk run whose model response is `"hello"`
(not JSON, no braces): the merged result has 0 segments while the chunk count
is 1 — refuting "every chunk contributes at least one segment" and
"total segment count ≥ number of chunks". -/
theorem merge_zero_contribution_cex :
    (processChunks callHello jparseNone [("hi").data]).2.length = 0 ∧
    ([("hi").data] : List (List Char)).length = 1 := ⟨rfl, rfl⟩

/-- A model response that is valid JSON with an empty segment list. -/
def respE : List Char := ("\x7b\"segments\": []\x7d").data

/-- `json.loads` for the empty-segments run: accepts exactly `respE` (valid
JSON, no title, no segments); consistent with Python on the strings
consulted. -/
def jparseE : List Char → Option ChunkData :=
  fun s => if s = respE then some ⟨none, []⟩ else none

/-- The oracle answering the well-formed empty-segments response. -/
def callE : Nat → Nat → CallResult := fun _ _ => .ok respE

/-- C1 witness: the concatenation identity, the zero-contribution
characterisation on the `"hello"` run (parse-failure branch), and the same
characterisation on the empty chunk whose response direct-parses to an empty
segment list (empty-chunk branch). -/
theorem merge_concat_order_witness :
    (processChunks callHello jparseNone [("hi").data]).2
      = (([("hi").data].enum).map
          (fun p => (chunkPass callHello jparseNone p.1 p.2).2)).flatten ∧
    (∃ r0, (retryRun (callHello 0)).response = some r0 ∧ r0 ≠ [] ∧
      ((∃ cd, jparseNone (stripFences r0) = some cd ∧ cd.segments = [] ∧
          ("hi").data = []) ∨
       (jparseNone (stripFences r0) = none ∧
         (braceCond (stripFences r0) = false ∨
           repairedSegs jparseNone (stripFences r0) = some [])))) ∧
    (∃ r0, (retryRun (callE 0)).response = some r0 ∧ r0 ≠ [] ∧
      ((∃ cd, jparseE (stripFences r0) = some cd ∧ cd.segments = [] ∧
          ([] : List Char) = []) ∨
       (jparseE (stripFences r0) = none ∧
         (braceCond (stripFences r0) = false ∨
           repairedSegs jparseE (stripFences r0) = some [])))) :=
  ⟨(merge_concat_order callHello jparseNone [("hi").data]).1,
   (merge_concat_order callHello jparseNone [("hi").data]).2 0 (("hi").data)
     (by decide),
   (merge_concat_order callE jparseE [([] : List Char)]).2 0 ([] : List Char)
     (by decide)⟩

/-! ### Title (C8) -/

/-- With `isFirst = false` no branch of the response handling sets a title. -/
theorem handleResponse_fst_false (jparse : List Char → Option ChunkData)
    (c : List Char) (resp : Option (List Char)) :
    (handleResponse jparse false c resp).1 = none := by
  cases resp with
  | none => rfl
  | some r0 =>
    by_cases h : r0.isEmpty
    · simp [handleResponse, h]
    · rw [handleResponse, if_neg h]
      cases hj : jparse (stripFences r0) with
      | some cd => simp [titleFrom]
      | none =>
        dsimp only
        split
        · cases h1 : jparse (repair1 (stripFences r0)) with
          | some cd => simp [titleFrom]
          | none =>
            cases h2 : jparse (repair2 (stripFences r0)) with
            | some cd => simp [titleFrom]
            | none => rfl
        · rfl

/-- Chunks after the first never set the title. -/
theorem chunkPass_rest_title (call : Nat → Nat → CallResult)
    (jparse : List Char → Option ChunkData) (i : Nat) (hi : i ≠ 0)
    (c : List Char) : (chunkPass call jparse i c).1 = none := by
  unfold chunkPass
  have h0 : (i == 0) = false := by simpa using hi
  rw [h0]
  exact handleResponse_fst_false jparse c _

/-- From index 1 on, the accumulated title is frozen. -/
theorem processGo_title_frozen (call : Nat → Nat → CallResult)
    (jparse : List Char → Option ChunkData) :
    ∀ (chunks : List (List Char)) (i : Nat) (title : Option (List Char))
      (acc : List Segment), 1 ≤ i →
      (processGo call jparse i title acc chunks).1 = orTitle title := by
  intro chunks
  induction chunks with
  | nil => intro i t acc _; rfl
  | cons c rest ih =>
    intro i t acc hi
    rw [processGo, chunkPass_rest_title call jparse i (by omega) c]
    exact ih (i + 1) t _ (by omega)

/-- C8: the result title is read only from the first chunk's handling and is
never overwritten by later chunks; when the first chunk yields no (truthy)
title, the final result carries the default placeholder
`"World Impact Transcript"`. -/
theorem title_from_first_chunk (call : Nat → Nat → CallResult)
    (jparse : List Char → Option ChunkData) (c : List Char)
    (rest : List (List Char)) :
    (processChunks call jparse (c :: rest)).1
      = orTitle (chunkPass call jparse 0 c).1 ∧
    ((chunkPass call jparse 0 c).1 = none →
      (processChunks call jparse (c :: rest)).1 = defaultTitle) := by
  have hmain : (processChunks call jparse (c :: rest)).1
      = orTitle (chunkPass call jparse 0 c).1 := by
    unfold processChunks
    rw [processGo]
    cases h : (chunkPass call jparse 0 c).1 with
    | none => exact processGo_title_frozen call jparse rest (0 + 1) none _ (by omega)
    | some t =>
      exact processGo_title_frozen call jparse rest (0 + 1) (some t) _ (by omega)
  refine ⟨hmain, fun hn => ?_⟩
  rw [hmain, hn]
  rfl

/-- C8 witness: the `"hello"` run sets no title from its first (only) chunk,
and the final title is the default placeholder. -/
theorem title_from_first_chunk_witness :
    (processChunks callHello jparseNone [("hi").data]).1 = defaultTitle :=
  (title_from_first_chunk callHello jparseNone (("hi").data) []).2 (by decide)

/-! ### Top-level fallback (C9) -/

/-- C9 (amended): when the AI formatting path raises, `format_transcript`
catches the exception and returns the basic path's output — the raw input
wrapped as a single `"Transcript"`-titled document — provided the template is
available; but when the template is missing the basic path itself raises and
the exception propagates to the caller, who then receives no document. -/
theorem fallback_to_basic (env : Env) (call : Nat → Nat → CallResult)
    (jparse : List Char → Option ChunkData) (text e : List Char)
    (h : format_transcript_with_claude env call jparse text = .error e) :
    (env.templateOk = true →
      format_transcript env call jparse text
        = .ok (.basic (("Transcript").data) text)) ∧
    (env.templateOk = false →
      format_transcript env call jparse text
        = .error (("Template file not found").data)) := by
  constructor <;> intro ht <;>
    simp [format_transcript, h, format_basic_transcript, get_template_path, ht]

/-- C9 counterexample: with the template missing, the AI path raises, the
basic path raises too, and `format_transcript` surfaces the exception — the
caller does NOT receive a usable document (the claim explicitly includes the
missing-template case). -/
theorem fallback_template_missing_cex :
    format_transcript ⟨none, false⟩ callHello jparseNone (("x").data)
      = .error (("Template file not found").data) := rfl

/-- C9 witness: no API key but the template present — the AI path raises and
the caller receives the basic wrap of the raw text. -/
theorem fallback_to_basic_witness :
    format_transcript ⟨none, true⟩ callHello jparseNone (("raw").data)
      = .ok (.basic (("Transcript").data) (("raw").data)) :=
  (fallback_to_basic ⟨none, true⟩ callHello jparseNone (("raw").data)
      (("ANTHROPIC_API_KEY not found in environment").data) rfl).1 rfl

end TranscriptFormatter
